import Mathlib

/-!
Shallow embedding of the audio service in `src/app.py` (FastAPI app exposing
`POST /transcrever` and `POST /remover-silencio`).

Conventions of the embedding:
* Scratch files live in an explicit filesystem `FS`: a list of `(path, bytes)`
  pairs plus a fresh-name counter (`tempfile.NamedTemporaryFile` allocates the
  next counter value as the path).
* External collaborators (the HTTP client `requests`, the decoder
  `AudioSegment.from_file`, `pydub.silence.split_on_silence`, WAV export, and
  the Whisper engine) are parameters bundled in `World`; the service code is
  translated literally on top of them.
* An `AudioSegment` is a list of per-millisecond loudness samples (dBFS), so
  `len(segment)` (pydub: duration in ms) is the list length.
* Python exceptions are values of `PyErr`; `try/finally` is modelled by running
  the translated body, then the translated cleanup, with an exception raised by
  the cleanup replacing the body's exception (CPython semantics).
* A local variable that may be unbound at its use site (`processed_file` in the
  cleanup of `transcrever_audio`) is carried as an `Option`; reading `none`
  raises `PyErr.nameError`, exactly where CPython raises `UnboundLocalError`.
-/

/-- Python exceptions that the translated code can raise. -/
inductive PyErr where
  /-- Raised as `fastapi.HTTPException(status_code, detail)`. -/
  | httpException (status : Nat) (detail : String)
  /-- The decoder failing on the input (pydub `CouldntDecodeError`). -/
  | decodeError
  /-- Python `TypeError`, raised by `len(0)` when `sum([])` returned the int `0`. -/
  | typeError
  /-- Python `UnboundLocalError` from reading a never-assigned local variable. -/
  | nameError
  deriving DecidableEq, Repr

/-- A decoded `pydub.AudioSegment`: per-millisecond loudness samples in dBFS.
`len(seg)` in pydub is the duration in milliseconds, i.e. `samples.length`. -/
structure Audio where
  samples : List Int
  deriving DecidableEq, Repr

/-- Concatenation of audio segments (pydub `seg1 + seg2` on segments). -/
def Audio.append (a b : Audio) : Audio := ⟨a.samples ++ b.samples⟩

/-- Result of Python `sum` over a list of `AudioSegment`s: `sum` starts from
the int `0`, and pydub's `AudioSegment.__radd__` turns `0 + seg` into `seg`,
so an empty list yields the *int* `0` while a non-empty list yields the
concatenated segment. -/
inductive PyVal where
  | intVal (n : Int)
  | seg (a : Audio)
  deriving DecidableEq, Repr

/-- Fold of `Audio.append` over a non-empty list, left to right. -/
def concatAudio (x : Audio) (xs : List Audio) : Audio :=
  xs.foldl Audio.append x

/-- Python `sum(chunks)` for `chunks : list[AudioSegment]`. -/
def pySum : List Audio → PyVal
  | [] => .intVal 0
  | x :: xs => .seg (concatAudio x xs)

/-- Python `len` applied to the value of `sum(chunks)`: `len` of an
`AudioSegment` is its duration in ms; `len` of an int raises `TypeError`. -/
def pyLen : PyVal → Except PyErr Nat
  | .intVal _ => .error .typeError
  | .seg a => .ok a.samples.length

/-! ### Filesystem model -/

/-- The filesystem visible to one request: current files (newest first) and
the next temp-file name `tempfile.NamedTemporaryFile` will allocate. -/
structure FS where
  files : List (Nat × List Nat)
  next : Nat
  deriving DecidableEq, Repr

/-- Well-formedness: every existing path was allocated below the counter,
so the next allocated name is fresh. -/
def FS.WF (fs : FS) : Prop :=
  ∀ p ∈ fs.files.map Prod.fst, p < fs.next

/-- Runs `tempfile.NamedTemporaryFile(delete=False)` followed by writing `content`:
creates a file at the fresh path and bumps the counter. -/
def mkTempWrite (fs : FS) (content : List Nat) : Nat × FS :=
  (fs.next, ⟨(fs.next, content) :: fs.files, fs.next + 1⟩)

/-- Runs `if os.path.exists(p): os.remove(p)` — removes every entry at `p`
(paths are unique under `FS.WF`). -/
def removePath (fs : FS) (p : Nat) : FS :=
  ⟨fs.files.filter (fun e => e.1 ≠ p), fs.next⟩

/-- Reading the bytes of the file at `p` (used when a library call opens the
file by path); absent files read as `[]`, which never happens on the
translated paths. -/
def readFile (fs : FS) (p : Nat) : List Nat :=
  ((fs.files.lookup p).getD [])

/-! ### External collaborators -/

/-- Behaviour of the external world during one request, abstracted:
`requests.get`, `AudioSegment.from_file`, `split_on_silence`, WAV export and
the Whisper engine. `M` is the type of loaded Whisper model handles. -/
structure World (M : Type) where
  /-- The value of `requests.get(url).status_code`. -/
  status : String → Nat
  /-- the streamed response body of `requests.get(url)`. -/
  body : String → List Nat
  /-- Runs `AudioSegment.from_file(path, format=fmt)` on a file holding the given
  bytes; `none` models `CouldntDecodeError`. -/
  decode : List Nat → String → Option Audio
  /-- Runs `pydub.silence.split_on_silence(audio, min_silence_len, silence_thresh,
  keep_silence)`. -/
  split : Nat → Int → Nat → Audio → List Audio
  /-- WAV encoding performed by `processed_audio.export(path, format="wav")`. -/
  encode : Audio → List Nat
  /-- Runs `whisper.load_model(model_name)`. -/
  load_model : String → M
  /-- Runs `model.transcribe(path)` on a file holding the given bytes and
  returns the text field. -/
  transcribe : M → List Nat → String

/-! ### `AudioService._load_whisper_model` (the model cache) -/

/-- The field `self._models`, the process-wide model cache: association list from model
name to loaded handle. -/
def ModelCache (M : Type) := List (String × M)

/-- Translation of `AudioService._load_whisper_model`:
```
if model_name not in self._models:
    self._models[model_name] = whisper.load_model(model_name)
return self._models[model_name]
``` -/
def loadWhisperModel {M : Type} (load_model : String → M)
    (models : ModelCache M) (model_name : String) : M × ModelCache M :=
  let models1 : ModelCache M :=
    match List.lookup model_name models with
    | none => (model_name, load_model model_name) :: models
    | some _ => models
  match List.lookup model_name models1 with
  | some m => (m, models1)
  | none => (load_model model_name, models1)

/-! ### String helpers for the filename extension -/

/-- Python `s.lower()`. -/
def lowerStr (s : String) : String := ⟨s.data.map Char.toLower⟩

/-- Python `s.rsplit('.', 1)[-1]`: the part of `s` after its last dot (the whole
string when there is no dot). -/
def afterLastDot (s : String) : String :=
  ⟨(s.data.reverse.takeWhile (fun c => c ≠ '.')).reverse⟩

/-- The fallback declared format. -/
def fallbackFmt : String := "wav"

/-- The extension logic shared by both endpoints:
```
if file.filename and '.' in file.filename:
    original_extension = file.filename.rsplit('.', 1)[-1].lower()
else:
    original_extension = "wav"
```
(`file.filename and ...` is falsy when the filename is `None` or empty). -/
def extOf (filename : Option String) : String :=
  match filename with
  | some s => if s ≠ "" ∧ '.' ∈ s.data then lowerStr (afterLastDot s) else fallbackFmt
  | none => fallbackFmt

/-! ### Duration conversion -/

/-- Round-half-even on rationals, the tie-breaking rule of Python's
built-in `round`. -/
def roundHalfEven (q : Rat) : Int :=
  let f := q.floor
  if q - f < 1 / 2 then f
  else if 1 / 2 < q - f then f + 1
  else if f % 2 = 0 then f else f + 1

/-- Python `round(q, 2)`. -/
def round2 (q : Rat) : Rat := (roundHalfEven (q * 100) : Rat) / 100

/-- Computes `round(ms / 1000.0 / 60.0, 2)` — the ms→minutes conversion of
`transcrever_audio`. -/
def msToMin (ms : Nat) : Rat := round2 ((ms : Rat) / 1000 / 60)

/-! ### Source acquisition -/

/-- An incoming `UploadFile`: `filename` attribute and body bytes. -/
structure Upload where
  filename : Option String
  content : List Nat
  deriving DecidableEq, Repr

def errNoInput : String := "Envie um arquivo ou uma URL de áudio/vídeo."

def errBothInputs : String := "Envie apenas um tipo de entrada (arquivo OU URL)."

def errDownload : String := "Erro ao baixar o arquivo."

/-- Translation of `AudioService._download_file`: non-200 status raises
`HTTPException(400)` before any file is created; otherwise the body is
streamed into a fresh temp file. -/
def download_file {M : Type} (w : World M) (fs : FS) (url : String) :
    Except PyErr (Nat × FS) :=
  if w.status url ≠ 200 then .error (.httpException 400 errDownload)
  else .ok (mkTempWrite fs (w.body url))

/-- The acquisition block both endpoints duplicate: upload bytes are written
to a fresh temp file with the extension-derived format; a URL is downloaded
via `download_file` with format `"wav"`. (The `none, none` case is
unreachable: both endpoints validate before acquiring.) -/
def acquireSource {M : Type} (w : World M) (fs : FS)
    (file : Option Upload) (url : Option String) :
    Except PyErr (Nat × String × FS) :=
  match file, url with
  | some up, _ =>
      let fmt := extOf up.filename
      let pfs := mkTempWrite fs up.content
      .ok (pfs.1, fmt, pfs.2)
  | none, some u =>
      match download_file w fs u with
      | .error e => .error e
      | .ok pfs => .ok (pfs.1, fallbackFmt, pfs.2)
  | none, none => .error (.httpException 400 errNoInput)

/-! ### `POST /transcrever` -/

/-- The JSON payload of a successful `/transcrever` response. -/
structure TranscreverResult where
  transcricao : String
  duracao_original_min : Rat
  duracao_processada_min : Rat
  deriving DecidableEq, Repr

/-- The `try` block of `transcrever_audio`. Returns the body's outcome
(`(text, original_duration_ms, processed_duration_ms)` on success), the
model cache, the filesystem, and the value of the local `processed_file`
(`none` = the variable was never assigned). In the `remove_silencio` branch,
zero chunks means `sum(chunks)` is the int `0` and
`processed_duration_ms = len(processed_audio)` raises `TypeError` before
`processed_file` is assigned. -/
def transcreverBody {M : Type} (w : World M) (models : ModelCache M) (fs : FS)
    (original_temp_file : Nat) (original_extension : String)
    (model_name : String) (remove_silencio : Bool) :
    Except PyErr (String × Nat × Nat) × ModelCache M × FS × Option Nat :=
  match w.decode (readFile fs original_temp_file) original_extension with
  | none => (.error .decodeError, models, fs, none)
  | some audio_full =>
    let original_duration_ms := audio_full.samples.length
    if remove_silencio then
      match w.split 100 (-35) 50 audio_full with
      | [] => (.error .typeError, models, fs, none)
      | c :: cs =>
        let processed_audio := concatAudio c cs
        let processed_duration_ms := processed_audio.samples.length
        let temp_output := mkTempWrite fs (w.encode processed_audio)
        let processed_file := temp_output.1
        let lm := loadWhisperModel w.load_model models model_name
        let resultado := w.transcribe lm.1 (readFile temp_output.2 processed_file)
        (.ok (resultado, original_duration_ms, processed_duration_ms),
         lm.2, temp_output.2, some processed_file)
    else
      let processed_file := original_temp_file
      let lm := loadWhisperModel w.load_model models model_name
      let resultado := w.transcribe lm.1 (readFile fs processed_file)
      (.ok (resultado, original_duration_ms, original_duration_ms),
       lm.2, fs, some processed_file)

/-- The `finally` block of `transcrever_audio`:
```
if os.path.exists(original_temp_file):
    os.remove(original_temp_file)
if remove_silencio and processed_file != original_temp_file and os.path.exists(processed_file):
    os.remove(processed_file)
```
When `remove_silencio` is true and `processed_file` was never assigned,
evaluating it raises `UnboundLocalError` (after the original temp file was
already removed); when `remove_silencio` is false the `and` short-circuits
and `processed_file` is not evaluated. -/
def transcreverCleanup (fs : FS) (original_temp_file : Nat)
    (remove_silencio : Bool) (processed_file : Option Nat) :
    Except PyErr Unit × FS :=
  let fs1 := removePath fs original_temp_file
  if remove_silencio then
    match processed_file with
    | none => (.error .nameError, fs1)
    | some pf =>
        if pf ≠ original_temp_file then (.ok (), removePath fs1 pf)
        else (.ok (), fs1)
  else (.ok (), fs1)

/-- The rest of `transcrever_audio` after acquisition: `try` body, `finally` cleanup
(whose exception, if any, replaces the body's), then ms→minutes conversion
and response shaping. -/
def transcreverRest {M : Type} (w : World M) (models : ModelCache M) (fs : FS)
    (original_temp_file : Nat) (original_extension : String)
    (model_name : String) (remove_silencio : Bool) :
    Except PyErr TranscreverResult × ModelCache M × FS :=
  let b := transcreverBody w models fs original_temp_file original_extension
    model_name remove_silencio
  let cl := transcreverCleanup b.2.2.1 original_temp_file remove_silencio b.2.2.2
  match cl.1 with
  | .error e2 => (.error e2, b.2.1, cl.2)
  | .ok _ =>
    match b.1 with
    | .error e => (.error e, b.2.1, cl.2)
    | .ok r =>
        (.ok { transcricao := r.1,
               duracao_original_min := msToMin r.2.1,
               duracao_processada_min := msToMin r.2.2 }, b.2.1, cl.2)

/-- Translation of `AudioService.transcrever_audio`: input-mode validation, acquisition,
then the trimming/transcription pipeline with unconditional cleanup. -/
def transcrever_audio {M : Type} (w : World M) (models : ModelCache M) (fs : FS)
    (file : Option Upload) (url : Option String)
    (model_name : String) (remove_silencio : Bool) :
    Except PyErr TranscreverResult × ModelCache M × FS :=
  if file.isNone ∧ url.isNone then (.error (.httpException 400 errNoInput), models, fs)
  else if file.isSome ∧ url.isSome then (.error (.httpException 400 errBothInputs), models, fs)
  else
    match acquireSource w fs file url with
    | .error e => (.error e, models, fs)
    | .ok pffs => transcreverRest w models pffs.2.2 pffs.1 pffs.2.1 model_name remove_silencio

/-! ### `POST /remover-silencio` -/

/-- The `FileResponse` returned by a successful `/remover-silencio` call. -/
structure FileResponseModel where
  path : Nat
  media_type : String
  filename : String
  headers : List (String × String)
  deriving DecidableEq, Repr

def removerFilename : String := "audio_sem_silencio.wav"

def wavMediaType : String := "audio/wav"

def hdrOriginal : String := "X-Original-Duration-ms"

def hdrProcessed : String := "X-Processed-Duration-ms"

/-- The `try` block of `remover_silencio`: decode, segment, concatenate,
export to a fresh temp WAV file. Zero chunks again makes
`len(sum(chunks))` raise `TypeError`. Returns
`(original_duration_ms, processed_duration_ms, processed_file)`. -/
def removerBody {M : Type} (w : World M) (fs : FS)
    (original_temp_file : Nat) (original_extension : String) :
    Except PyErr (Nat × Nat × Nat) × FS :=
  match w.decode (readFile fs original_temp_file) original_extension with
  | none => (.error .decodeError, fs)
  | some audio =>
    let original_duration_ms := audio.samples.length
    match w.split 100 (-35) 50 audio with
    | [] => (.error .typeError, fs)
    | c :: cs =>
      let processed_audio := concatAudio c cs
      let processed_duration_ms := processed_audio.samples.length
      let temp_output := mkTempWrite fs (w.encode processed_audio)
      (.ok (original_duration_ms, processed_duration_ms, temp_output.1), temp_output.2)

/-- Translation of `AudioService.remover_silencio`: validation, acquisition, trimming; the
`finally` block removes only `original_temp_file` — the exported trimmed
file is handed to `FileResponse` and never removed. -/
def remover_silencio {M : Type} (w : World M) (fs : FS)
    (file : Option Upload) (url : Option String) :
    Except PyErr FileResponseModel × FS :=
  if file.isNone ∧ url.isNone then (.error (.httpException 400 errNoInput), fs)
  else if file.isSome ∧ url.isSome then (.error (.httpException 400 errBothInputs), fs)
  else
    match acquireSource w fs file url with
    | .error e => (.error e, fs)
    | .ok pffs =>
      let b := removerBody w pffs.2.2 pffs.1 pffs.2.1
      let fs2 := removePath b.2 pffs.1
      match b.1 with
      | .error e => (.error e, fs2)
      | .ok r =>
          (.ok { path := r.2.2, media_type := wavMediaType, filename := removerFilename,
                 headers := [(hdrOriginal, toString r.1), (hdrProcessed, toString r.2.1)] },
           fs2)

/-! ### A concrete segmentation routine (external collaborator) -/

/-- Run-length encoding of a mask into maximal runs. -/
def rle : List Bool → List (Bool × Nat)
  | [] => []
  | b :: rest =>
    match rle rest with
    | [] => [(b, 1)]
    | (c, k) :: t => if b = c then (b, k + 1) :: t else (b, 1) :: (c, k) :: t

/-- Merge adjacent runs carrying the same flag. -/
def mergeRuns : List (Bool × Nat) → List (Bool × Nat)
  | [] => []
  | r :: rest =>
    match mergeRuns rest with
    | [] => [r]
    | s :: t => if r.1 = s.1 then (r.1, r.2 + s.2) :: t else r :: s :: t

/-- Start/stop positions of the non-silent runs. -/
def runsToSpans : Nat → List (Bool × Nat) → List (Nat × Nat)
  | _, [] => []
  | start, (silent, k) :: rest =>
    if silent then runsToSpans (start + k) rest
    else (start, start + k) :: runsToSpans (start + k) rest

/-- The sub-segment of `a` from ms `s` (inclusive) to ms `e` (exclusive). -/
def sliceAudio (a : Audio) (s e : Nat) : Audio :=
  ⟨(a.samples.drop s).take (e - s)⟩

/-- Modelled from the spec: the external audio library's
`split_on_silence(audio, min_silence_len, silence_thresh, keep_silence)`
(pydub, not part of this repository). A silence span is a maximal run of at
least `min_silence_len` consecutive milliseconds below `silence_thresh`;
the retained non-silent spans are the complement, each extended by
`keep_silence` ms of adjacent silence on both edges (clamped to the clip).
A clip that is silent throughout yields no spans. -/
def splitOnSilence (min_silence_len : Nat) (silence_thresh : Int)
    (keep_silence : Nat) (a : Audio) : List Audio :=
  let mask := a.samples.map (fun x => decide (x < silence_thresh))
  let runs := mergeRuns ((rle mask).map
    (fun r => if r.1 = true ∧ r.2 < min_silence_len then (false, r.2) else r))
  let spans := runsToSpans 0 runs
  spans.map (fun s =>
    sliceAudio a (s.1 - keep_silence) (min a.samples.length (s.2 + keep_silence)))

/-! ### Basic filesystem lemmas -/

theorem filter_ne_of_not_mem {l : List (Nat × List Nat)} {p : Nat}
    (h : p ∉ l.map Prod.fst) : l.filter (fun e => e.1 ≠ p) = l := by
  apply List.filter_eq_self.mpr
  intro a ha
  have hne : a.1 ≠ p := fun he => h (he ▸ List.mem_map_of_mem Prod.fst ha)
  simpa using hne

theorem removePath_not_mem {fs : FS} {p : Nat}
    (h : p ∉ fs.files.map Prod.fst) : removePath fs p = fs := by
  unfold removePath
  rw [filter_ne_of_not_mem h]

theorem FS.WF.not_mem {fs : FS} (h : fs.WF) : fs.next ∉ fs.files.map Prod.fst :=
  fun hm => lt_irrefl _ (h _ hm)

/-! ### Claims -/

/-- C7: the first call to the model cache for a `model_name` loads the model
and stores the handle; later calls with the same name return the stored
handle without invoking the loader (the result does not depend on the loader
at all); distinct names never share an entry (other keys are untouched);
and entries are never evicted (every stored binding survives every call). -/
theorem loadWhisperModel_cache_contract {M : Type} (load_model : String → M)
    (models : ModelCache M) (n : String) :
    (List.lookup n models = none →
       loadWhisperModel load_model models n =
         (load_model n, (n, load_model n) :: models)) ∧
    (∀ m, List.lookup n models = some m →
       loadWhisperModel load_model models n = (m, models) ∧
       ∀ load2 : String → M, loadWhisperModel load2 models n = (m, models)) ∧
    (∀ n2, n2 ≠ n →
       List.lookup n2 (loadWhisperModel load_model models n).2 =
         List.lookup n2 models) ∧
    (∀ n2 m, List.lookup n2 models = some m →
       List.lookup n2 (loadWhisperModel load_model models n).2 = some m) := by
  refine ⟨?_, ?_, ?_, ?_⟩
  · intro h
    simp [loadWhisperModel, h]
  · intro m hm
    constructor
    · simp [loadWhisperModel, hm]
    · intro load2
      simp [loadWhisperModel, hm]
  · intro n2 hne
    cases h : List.lookup n models with
    | none =>
      have hb : (n2 == n) = false := beq_eq_false_iff_ne.mpr hne
      simp [loadWhisperModel, h, List.lookup, hb]
    | some m => simp [loadWhisperModel, h]
  · intro n2 m hm
    cases h : List.lookup n models with
    | none =>
      have hne : n2 ≠ n := by
        intro he
        rw [he, h] at hm
        exact Option.noConfusion hm
      have hb : (n2 == n) = false := beq_eq_false_iff_ne.mpr hne
      simp [loadWhisperModel, h, List.lookup, hb, hm]
    | some m2 => simp [loadWhisperModel, h, hm]

def baseName : String := "base"

/-- Witness for C7: concrete cache runs (a miss that loads and stores, then
a hit that returns the stored handle under a different loader). -/
theorem loadWhisperModel_cache_contract_witness :
    loadWhisperModel (fun _ => (7 : Nat)) [] baseName = (7, [(baseName, 7)]) ∧
    loadWhisperModel (fun _ => (9 : Nat)) [(baseName, 7)] baseName =
      (7, [(baseName, 7)]) :=
  ⟨(loadWhisperModel_cache_contract (fun _ => (7 : Nat)) [] baseName).1 rfl,
   ((loadWhisperModel_cache_contract (fun _ => (9 : Nat)) [(baseName, 7)]
      baseName).2.1 7 rfl).2 (fun _ => 9)⟩

theorem ratFloor_eq {q : Rat} {z : Int} (h1 : (z : Rat) ≤ q) (h2 : q < z + 1) :
    q.floor = z := by
  have ha : z ≤ q.floor := Rat.le_floor.mpr h1
  have hb : ¬(z + 1 ≤ q.floor) := fun h => by
    have := Rat.le_floor.mp h
    push_cast at this
    exact absurd this (not_le.mpr h2)
  omega

/-- C8: the ms→minutes conversion `round(ms / 1000.0 / 60.0, 2)` yields
1.5 minutes for 90000 ms (exactly) and 1.08 minutes for 65000 ms. -/
theorem msToMin_values :
    msToMin 90000 = 3 / 2 ∧ msToMin 65000 = 27 / 25 := by
  have f90 : ((150 : Rat)).floor = 150 := ratFloor_eq (by norm_num) (by norm_num)
  have f65 : ((325 / 3 : Rat)).floor = 108 := ratFloor_eq (by norm_num) (by norm_num)
  constructor
  · have h : ((90000 : Nat) : Rat) / 1000 / 60 * 100 = 150 := by norm_num
    simp only [msToMin, round2, roundHalfEven, h, f90]
    norm_num
  · have h : ((65000 : Nat) : Rat) / 1000 / 60 * 100 = 325 / 3 := by norm_num
    simp only [msToMin, round2, roundHalfEven, h, f65]
    norm_num

/-! ### Concrete fixtures used by witnesses -/

/-- An empty filesystem. -/
def fs0 : FS := ⟨[], 0⟩

/-- A trivial external world: every fetch succeeds with an empty body,
nothing decodes, segmentation is `splitOnSilence`, encoding and
transcription are constant. -/
def unitWorld : World Unit where
  status := fun _ => 200
  body := fun _ => []
  decode := fun _ _ => none
  split := splitOnSilence
  encode := fun a => a.samples.map Int.natAbs
  load_model := fun _ => ()
  transcribe := fun _ _ => ""

/-- A world whose fetches all return HTTP 404. -/
def world404 : World Unit := { unitWorld with status := fun _ => 404 }

def urlEx : String := "http://example.com/audio.wav"

def fnameEx : String := "Voz.MP3"

/-- A concrete upload: filename with an upper-case extension, three bytes. -/
def upEx : Upload := ⟨some fnameEx, [1, 2, 3]⟩

/-- C2: supplying both of {file, url} or neither fails with HTTP 400 on both
endpoints, leaving the filesystem (and the model cache) untouched — the
request is rejected before any file I/O. -/
theorem invalid_input_rejected {M : Type} (w : World M) (models : ModelCache M)
    (fs : FS) (file : Option Upload) (url : Option String)
    (model_name : String) (remove_silencio : Bool)
    (h : (file = none ∧ url = none) ∨ (file.isSome ∧ url.isSome)) :
    (∃ d, transcrever_audio w models fs file url model_name remove_silencio =
        (.error (.httpException 400 d), models, fs)) ∧
    (∃ d, remover_silencio w fs file url = (.error (.httpException 400 d), fs)) := by
  rcases h with ⟨hf, hu⟩ | ⟨hf, hu⟩
  · subst hf; subst hu
    exact ⟨⟨errNoInput, rfl⟩, ⟨errNoInput, rfl⟩⟩
  · rcases Option.isSome_iff_exists.mp hf with ⟨a, rfl⟩
    rcases Option.isSome_iff_exists.mp hu with ⟨b, rfl⟩
    exact ⟨⟨errBothInputs, rfl⟩, ⟨errBothInputs, rfl⟩⟩

/-- Witness for C2: the neither-supplied case on a concrete empty request. -/
theorem invalid_input_rejected_witness :
    (∃ d, transcrever_audio unitWorld [] fs0 none none baseName true =
        (.error (.httpException 400 d), [], fs0)) ∧
    (∃ d, remover_silencio unitWorld fs0 none none =
        (.error (.httpException 400 d), fs0)) :=
  invalid_input_rejected unitWorld [] fs0 none none baseName true
    (Or.inl ⟨rfl, rfl⟩)

/-- C5: a URL fetch with a non-2xx status fails on both endpoints with an
HTTP 400 error carrying a detail message, and no scratch file is created
(the filesystem is returned unchanged). -/
theorem url_fetch_failure {M : Type} (w : World M) (models : ModelCache M)
    (fs : FS) (u : String) (model_name : String) (remove_silencio : Bool)
    (h : ¬(200 ≤ w.status u ∧ w.status u < 300)) :
    transcrever_audio w models fs none (some u) model_name remove_silencio =
      (.error (.httpException 400 errDownload), models, fs) ∧
    remover_silencio w fs none (some u) =
      (.error (.httpException 400 errDownload), fs) := by
  have hne : w.status u ≠ 200 := fun he => h (by rw [he]; omega)
  constructor <;>
    simp [transcrever_audio, remover_silencio, acquireSource, download_file, hne]

/-- Witness for C5: a fetch answered with HTTP 404. -/
theorem url_fetch_failure_witness :
    transcrever_audio world404 [] fs0 none (some urlEx) baseName true =
      (.error (.httpException 400 errDownload), [], fs0) ∧
    remover_silencio world404 fs0 none (some urlEx) =
      (.error (.httpException 400 errDownload), fs0) :=
  url_fetch_failure world404 [] fs0 urlEx baseName true (by decide)

/-- The declared-format rule in the words of the spec: the lower-cased part
after the filename's last dot when the filename contains a dot, otherwise
the fallback format. -/
def extSpec (filename : Option String) : String :=
  match filename with
  | some s => if '.' ∈ s.data then lowerStr (afterLastDot s) else fallbackFmt
  | none => fallbackFmt

/-- C9: upload-mode acquisition writes the uploaded bytes verbatim to a new
scratch file (a path not previously present) and declares the format given
by the extension rule, which coincides with the spec's description
(`extSpec`); URL-mode acquisition always declares the fallback format,
whatever the URL and response. -/
theorem acquireSource_contract {M : Type} (w : World M) (fs : FS)
    (hwf : fs.WF) :
    (∀ up : Upload,
        acquireSource w fs (some up) none =
          .ok (fs.next, extOf up.filename,
               ⟨(fs.next, up.content) :: fs.files, fs.next + 1⟩) ∧
        readFile ⟨(fs.next, up.content) :: fs.files, fs.next + 1⟩ fs.next =
          up.content ∧
        fs.next ∉ fs.files.map Prod.fst) ∧
    (∀ fn, extOf fn = extSpec fn) ∧
    (∀ u r, acquireSource w fs none (some u) = .ok r → r.2.1 = fallbackFmt) := by
  refine ⟨?_, ?_, ?_⟩
  · intro up
    refine ⟨rfl, by simp [readFile, List.lookup], hwf.not_mem⟩
  · intro fn
    match fn with
    | none => rfl
    | some s =>
      by_cases hd : '.' ∈ s.data
      · have hne : s ≠ "" := by
          intro he
          subst he
          simp [String.data] at hd
        simp [extOf, extSpec, hd, hne]
      · simp [extOf, extSpec, hd]
  · intro u r hr
    simp only [acquireSource] at hr
    cases hdl : download_file w fs u with
    | error e => rw [hdl] at hr; exact Except.noConfusion hr
    | ok pfs =>
      rw [hdl] at hr
      cases hr
      rfl

/-- Witness for C9: acquiring a concrete upload named `Voz.MP3` on an empty
filesystem (bytes land verbatim at the fresh path, format is `mp3`). -/
theorem acquireSource_contract_witness :
    acquireSource unitWorld fs0 (some upEx) none =
      .ok (0, extOf upEx.filename, ⟨[(0, upEx.content)], 1⟩) ∧
    readFile ⟨[(0, upEx.content)], 1⟩ 0 = upEx.content ∧
    (0 : Nat) ∉ fs0.files.map Prod.fst := by
  have h := (acquireSource_contract unitWorld fs0 (by simp [FS.WF, fs0])).1 upEx
  simpa using h

/-- C4: in `transcrever_audio` with `remove_silencio=True`, when decoding
fails inside the `try` block the `finally` cleanup evaluates the
never-assigned local `processed_file`, so the request raises
`UnboundLocalError` instead of propagating the decode error (the original
scratch file was already removed by the first cleanup line). -/
theorem decode_failure_raises_nameError {M : Type} (w : World M)
    (models : ModelCache M) (fs : FS) (up : Upload) (model_name : String)
    (hwf : fs.WF) :
    (w.decode up.content (extOf up.filename) = none →
      transcrever_audio w models fs (some up) none model_name true =
        (.error .nameError, models, ⟨fs.files, fs.next + 1⟩)) ∧
    (∀ audio, w.decode up.content (extOf up.filename) = some audio →
      w.split 100 (-35) 50 audio = [] →
      transcrever_audio w models fs (some up) none model_name true =
        (.error .nameError, models, ⟨fs.files, fs.next + 1⟩)) := by
  have hread : readFile ⟨(fs.next, up.content) :: fs.files, fs.next + 1⟩ fs.next =
      up.content := by simp [readFile, List.lookup]
  have hfi : List.filter (fun e => !decide (e.1 = fs.next)) fs.files = fs.files := by
    simpa using filter_ne_of_not_mem (p := fs.next) hwf.not_mem
  constructor
  · intro hdec
    simp [transcrever_audio, acquireSource, mkTempWrite, transcreverRest,
      transcreverBody, transcreverCleanup, removePath, hread, hdec, hfi]
  · intro audio hdec hch
    simp [transcrever_audio, acquireSource, mkTempWrite, transcreverRest,
      transcreverBody, transcreverCleanup, removePath, hread, hdec, hch, hfi]

/-- Witness for C4: the concrete upload with a world where nothing decodes —
the response is the unbound-variable error, not the decode error. -/
theorem decode_failure_raises_nameError_witness :
    transcrever_audio unitWorld [] fs0 (some upEx) none baseName true =
      (.error .nameError, [], ⟨[], 1⟩) := by
  have h := (decode_failure_raises_nameError unitWorld [] fs0 upEx baseName
    (by simp [FS.WF, fs0])).1 rfl
  simpa using h

/-- The bytes a request acquires: the upload body, or the fetched URL body. -/
def sourceBytes {M : Type} (w : World M) (file : Option Upload)
    (url : Option String) : List Nat :=
  match file, url with
  | some up, _ => up.content
  | none, some u => w.body u
  | none, none => []

/-- The declared format of the acquired source. -/
def declaredFmt (file : Option Upload) : String :=
  match file with
  | some up => extOf up.filename
  | none => fallbackFmt

/-- C6: with `remove_silencio=false`, a successful `/transcrever` reports a
processed duration equal (as the same rounded value) to the original
duration, allocates exactly one scratch file — the acquired input, so no
trimming output is ever created — removes it again, and transcribes the
original acquired bytes. -/
theorem transcrever_no_trim {M : Type} (w : World M) (models : ModelCache M)
    (fs : FS) (file : Option Upload) (url : Option String) (model_name : String)
    (hwf : fs.WF) :
    ∀ r models2 fs2,
      transcrever_audio w models fs file url model_name false =
        (.ok r, models2, fs2) →
      r.duracao_processada_min = r.duracao_original_min ∧
      fs2.files = fs.files ∧ fs2.next = fs.next + 1 ∧
      r.transcricao =
        w.transcribe (loadWhisperModel w.load_model models model_name).1
          (sourceBytes w file url) := by
  intro r models2 fs2 h
  have hfi : List.filter (fun e => !decide (e.1 = fs.next)) fs.files = fs.files := by
    simpa using filter_ne_of_not_mem (p := fs.next) hwf.not_mem
  match file, url with
  | none, none => simp [transcrever_audio] at h
  | some up, some u => simp [transcrever_audio] at h
  | some up, none =>
    have hread : readFile ⟨(fs.next, up.content) :: fs.files, fs.next + 1⟩ fs.next =
        up.content := by simp [readFile, List.lookup]
    cases hdec : w.decode up.content (extOf up.filename) with
    | none =>
      simp [transcrever_audio, acquireSource, mkTempWrite, transcreverRest,
        transcreverBody, transcreverCleanup, removePath, hread, hdec, hfi] at h
    | some audio =>
      simp [transcrever_audio, acquireSource, mkTempWrite, transcreverRest,
        transcreverBody, transcreverCleanup, removePath, hread, hdec, hfi] at h
      obtain ⟨hr, _hm, hfs⟩ := h
      subst hr
      subst hfs
      exact ⟨rfl, rfl, rfl, by simp [sourceBytes]⟩
  | none, some u =>
    by_cases hst : w.status u = 200
    · have hread : readFile ⟨(fs.next, w.body u) :: fs.files, fs.next + 1⟩ fs.next =
          w.body u := by simp [readFile, List.lookup]
      cases hdec : w.decode (w.body u) fallbackFmt with
      | none =>
        simp [transcrever_audio, acquireSource, download_file, mkTempWrite,
          transcreverRest, transcreverBody, transcreverCleanup, removePath,
          hst, hread, hdec, hfi] at h
      | some audio =>
        simp [transcrever_audio, acquireSource, download_file, mkTempWrite,
          transcreverRest, transcreverBody, transcreverCleanup, removePath,
          hst, hread, hdec, hfi] at h
        obtain ⟨hr, _hm, hfs⟩ := h
        subst hr
        subst hfs
        exact ⟨rfl, rfl, rfl, by simp [sourceBytes]⟩
    · simp [transcrever_audio, acquireSource, download_file, hst] at h

/-- 120 ms of audio at 0 dBFS: entirely above the −35 dBFS threshold. -/
def loudClip : Audio := ⟨List.replicate 120 0⟩

/-- 120 ms of audio at −50 dBFS: entirely below the −35 dBFS threshold. -/
def silentClip : Audio := ⟨List.replicate 120 (-50)⟩

/-- A world whose decoder always yields the loud clip. -/
def worldLoud : World Unit := { unitWorld with decode := fun _ _ => some loudClip }

/-- A world whose decoder always yields the silent clip. -/
def worldSilent : World Unit := { unitWorld with decode := fun _ _ => some silentClip }

/-- The `/transcrever` result of the concrete no-trim run used as witness. -/
def transcreverOkEx : TranscreverResult :=
  { transcricao := "", duracao_original_min := msToMin 120,
    duracao_processada_min := msToMin 120 }

/-- The model cache after the witness run loaded the base model. -/
def cacheEx : ModelCache Unit := [(baseName, ())]

/-- Witness for C6: a concrete upload transcribed with
`remove_silencio=false` — equal durations, one scratch file allocated and
removed, transcription of the original bytes. -/
theorem transcrever_no_trim_witness :
    transcreverOkEx.duracao_processada_min = transcreverOkEx.duracao_original_min ∧
    (⟨[], 1⟩ : FS).files = fs0.files ∧ (⟨[], 1⟩ : FS).next = fs0.next + 1 ∧
    transcreverOkEx.transcricao =
      worldLoud.transcribe (loadWhisperModel worldLoud.load_model [] baseName).1
        (sourceBytes worldLoud (some upEx) none) :=
  transcrever_no_trim worldLoud [] fs0 (some upEx) none baseName
    (by simp [FS.WF, fs0]) transcreverOkEx cacheEx ⟨[], 1⟩ (by rfl)

/-- C10: every successful `/remover-silencio` response carries the trimmed
audio file with media type `audio/wav`, attachment filename
`audio_sem_silencio.wav`, and headers `X-Original-Duration-ms` /
`X-Processed-Duration-ms` holding the decimal integer millisecond durations
of the decoded original audio and of the concatenated retained chunks; the
file at the response path holds the encoded trimmed audio. -/
theorem remover_response_shape {M : Type} (w : World M) (fs : FS)
    (file : Option Upload) (url : Option String) (hwf : fs.WF) :
    ∀ r fs2, remover_silencio w fs file url = (.ok r, fs2) →
      r.media_type = wavMediaType ∧ r.filename = removerFilename ∧
      ∃ a c cs,
        w.decode (sourceBytes w file url) (declaredFmt file) = some a ∧
        w.split 100 (-35) 50 a = c :: cs ∧
        r.headers = [(hdrOriginal, toString a.samples.length),
                     (hdrProcessed, toString (concatAudio c cs).samples.length)] ∧
        readFile fs2 r.path = w.encode (concatAudio c cs) := by
  intro r fs2 h
  have hfi : List.filter (fun e => !decide (e.1 = fs.next)) fs.files = fs.files := by
    simpa using filter_ne_of_not_mem (p := fs.next) hwf.not_mem
  match file, url with
  | none, none => simp [remover_silencio] at h
  | some up, some u => simp [remover_silencio] at h
  | some up, none =>
    have hread : readFile ⟨(fs.next, up.content) :: fs.files, fs.next + 1⟩ fs.next =
        up.content := by simp [readFile, List.lookup]
    cases hdec : w.decode up.content (extOf up.filename) with
    | none =>
      simp [remover_silencio, acquireSource, mkTempWrite, removerBody,
        removePath, hread, hdec, hfi] at h
    | some audio =>
      cases hch : w.split 100 (-35) 50 audio with
      | nil =>
        simp [remover_silencio, acquireSource, mkTempWrite, removerBody,
          removePath, hread, hdec, hch, hfi] at h
      | cons c cs =>
        simp [remover_silencio, acquireSource, mkTempWrite, removerBody,
          removePath, hread, hdec, hch, hfi] at h
        obtain ⟨hr, hfs⟩ := h
        subst hr
        subst hfs
        refine ⟨rfl, rfl, audio, c, cs, by simpa [sourceBytes, declaredFmt] using hdec,
          hch, rfl, ?_⟩
        simp [readFile, List.lookup]
  | none, some u =>
    by_cases hst : w.status u = 200
    · have hread : readFile ⟨(fs.next, w.body u) :: fs.files, fs.next + 1⟩ fs.next =
          w.body u := by simp [readFile, List.lookup]
      cases hdec : w.decode (w.body u) fallbackFmt with
      | none =>
        simp [remover_silencio, acquireSource, download_file, mkTempWrite,
          removerBody, removePath, hst, hread, hdec, hfi] at h
      | some audio =>
        cases hch : w.split 100 (-35) 50 audio with
        | nil =>
          simp [remover_silencio, acquireSource, download_file, mkTempWrite,
            removerBody, removePath, hst, hread, hdec, hch, hfi] at h
        | cons c cs =>
          simp [remover_silencio, acquireSource, download_file, mkTempWrite,
            removerBody, removePath, hst, hread, hdec, hch, hfi] at h
          obtain ⟨hr, hfs⟩ := h
          subst hr
          subst hfs
          refine ⟨rfl, rfl, audio, c, cs, by simpa [sourceBytes, declaredFmt] using hdec,
            hch, rfl, ?_⟩
          simp [readFile, List.lookup]
    · simp [remover_silencio, acquireSource, download_file, hst] at h

/-- The concrete successful `/remover-silencio` response used as witness. -/
def respEx : FileResponseModel :=
  { path := 1, media_type := wavMediaType, filename := removerFilename,
    headers := [(hdrOriginal, toString (120 : Nat)),
                (hdrProcessed, toString (120 : Nat))] }

/-- The filesystem left behind by that run: the trimmed output only. -/
def fsAfterEx : FS := ⟨[(1, List.replicate 120 0)], 2⟩

set_option maxRecDepth 100000 in
/-- Witness for C10: the concrete loud-clip run produces exactly the
modelled `FileResponse`. -/
theorem remover_response_shape_witness :
    respEx.media_type = wavMediaType ∧ respEx.filename = removerFilename ∧
    ∃ a c cs,
      worldLoud.decode (sourceBytes worldLoud (some upEx) none)
          (declaredFmt (some upEx)) = some a ∧
      worldLoud.split 100 (-35) 50 a = c :: cs ∧
      respEx.headers = [(hdrOriginal, toString a.samples.length),
                        (hdrProcessed, toString (concatAudio c cs).samples.length)] ∧
      readFile fsAfterEx respEx.path = worldLoud.encode (concatAudio c cs) :=
  remover_response_shape worldLoud fs0 (some upEx) none (by simp [FS.WF, fs0])
    respEx fsAfterEx (by rfl)

set_option maxRecDepth 100000 in
/-- C3 (code bug): on a clip that is silent throughout, the segmentation
pass retains zero spans, Python's `sum([])` is the int `0`, and
`len(processed_audio)` raises `TypeError`: `/remover-silencio` crashes with
that `TypeError` and `/transcrever` even turns it into an unbound-variable
error in its cleanup — neither endpoint produces the defined output the
spec requires. -/
theorem silent_clip_crashes :
    splitOnSilence 100 (-35) 50 silentClip = [] ∧
    pyLen (pySum (splitOnSilence 100 (-35) 50 silentClip)) = .error .typeError ∧
    remover_silencio worldSilent fs0 (some upEx) none =
      (.error .typeError, ⟨[], 1⟩) ∧
    transcrever_audio worldSilent [] fs0 (some upEx) none baseName true =
      (.error .nameError, [], ⟨[], 1⟩) :=
  ⟨by rfl, by rfl, by rfl, by rfl⟩

set_option maxRecDepth 100000 in
/-- C1 counterexample: a successful `/remover-silencio` request ends with
its trimmed-output scratch file still on the filesystem — the response
references that very file — so not every scratch file created during the
request is removed by the time the response is produced. -/
theorem remover_leaves_output_file :
    remover_silencio worldLoud fs0 (some upEx) none = (.ok respEx, fsAfterEx) ∧
    fsAfterEx.files.map Prod.fst = [respEx.path] :=
  ⟨by rfl, by rfl⟩

/-- C1 (amended): `/transcrever` removes every scratch file it created on
every path, success or error, leaving the filesystem exactly as found;
`/remover-silencio` likewise restores the filesystem on every error path,
but on success the trimmed-output scratch file — the freshly allocated
response payload — remains. -/
theorem scratch_file_lifecycle {M : Type} (w : World M) (models : ModelCache M)
    (fs : FS) (file : Option Upload) (url : Option String)
    (model_name : String) (remove_silencio : Bool) (hwf : fs.WF) :
    (transcrever_audio w models fs file url model_name remove_silencio).2.2.files
      = fs.files ∧
    (∀ e, (remover_silencio w fs file url).1 = .error e →
      (remover_silencio w fs file url).2.files = fs.files) ∧
    (∀ r, (remover_silencio w fs file url).1 = .ok r →
      r.path = fs.next + 1 ∧ ∃ cnt,
        (remover_silencio w fs file url).2.files = (r.path, cnt) :: fs.files) := by
  have hnm : ∀ m, fs.next ≤ m → m ∉ fs.files.map Prod.fst := fun m hm hmem =>
    absurd (hwf m hmem) (not_lt.mpr hm)
  have hfi0 : List.filter (fun e => !decide (e.1 = fs.next)) fs.files = fs.files := by
    simpa using filter_ne_of_not_mem (hnm fs.next le_rfl)
  have hfi1 : List.filter (fun e => !decide (e.1 = fs.next + 1)) fs.files = fs.files := by
    simpa using filter_ne_of_not_mem (hnm (fs.next + 1) (Nat.le_succ _))
  have hne1 : fs.next + 1 ≠ fs.next := by omega
  refine ⟨?_, ?_, ?_⟩
  · match file, url with
    | none, none => simp [transcrever_audio]
    | some up, some u => simp [transcrever_audio]
    | some up, none =>
      have hread : readFile ⟨(fs.next, up.content) :: fs.files, fs.next + 1⟩ fs.next =
          up.content := by simp [readFile, List.lookup]
      cases hdec : w.decode up.content (extOf up.filename) with
      | none =>
        cases remove_silencio <;>
          simp [transcrever_audio, acquireSource, mkTempWrite, transcreverRest,
            transcreverBody, transcreverCleanup, removePath, hread, hdec,
            hfi0, hfi1, hne1]
      | some audio =>
        cases remove_silencio with
        | false =>
          simp [transcrever_audio, acquireSource, mkTempWrite, transcreverRest,
            transcreverBody, transcreverCleanup, removePath, hread, hdec,
            hfi0, hfi1, hne1]
        | true =>
          cases hch : w.split 100 (-35) 50 audio with
          | nil =>
            simp [transcrever_audio, acquireSource, mkTempWrite, transcreverRest,
              transcreverBody, transcreverCleanup, removePath, hread, hdec, hch,
              hfi0, hfi1, hne1]
          | cons c cs =>
            simp [transcrever_audio, acquireSource, mkTempWrite, transcreverRest,
              transcreverBody, transcreverCleanup, removePath, hread, hdec, hch,
              hfi0, hfi1, hne1]
    | none, some u =>
      by_cases hst : w.status u = 200
      · have hread : readFile ⟨(fs.next, w.body u) :: fs.files, fs.next + 1⟩ fs.next =
            w.body u := by simp [readFile, List.lookup]
        cases hdec : w.decode (w.body u) fallbackFmt with
        | none =>
          cases remove_silencio <;>
            simp [transcrever_audio, acquireSource, download_file, mkTempWrite,
              transcreverRest, transcreverBody, transcreverCleanup, removePath,
              hst, hread, hdec, hfi0, hfi1, hne1]
        | some audio =>
          cases remove_silencio with
          | false =>
            simp [transcrever_audio, acquireSource, download_file, mkTempWrite,
              transcreverRest, transcreverBody, transcreverCleanup, removePath,
              hst, hread, hdec, hfi0, hfi1, hne1]
          | true =>
            cases hch : w.split 100 (-35) 50 audio with
            | nil =>
              simp [transcrever_audio, acquireSource, download_file, mkTempWrite,
                transcreverRest, transcreverBody, transcreverCleanup, removePath,
                hst, hread, hdec, hch, hfi0, hfi1, hne1]
            | cons c cs =>
              simp [transcrever_audio, acquireSource, download_file, mkTempWrite,
                transcreverRest, transcreverBody, transcreverCleanup, removePath,
                hst, hread, hdec, hch, hfi0, hfi1, hne1]
      · simp [transcrever_audio, acquireSource, download_file, hst]
  · intro e he
    match file, url with
    | none, none => simp [remover_silencio]
    | some up, some u => simp [remover_silencio]
    | some up, none =>
      have hread : readFile ⟨(fs.next, up.content) :: fs.files, fs.next + 1⟩ fs.next =
          up.content := by simp [readFile, List.lookup]
      cases hdec : w.decode up.content (extOf up.filename) with
      | none =>
        simp [remover_silencio, acquireSource, mkTempWrite, removerBody,
          removePath, hread, hdec, hfi0, hne1]
      | some audio =>
        cases hch : w.split 100 (-35) 50 audio with
        | nil =>
          simp [remover_silencio, acquireSource, mkTempWrite, removerBody,
            removePath, hread, hdec, hch, hfi0, hne1]
        | cons c cs =>
          simp [remover_silencio, acquireSource, mkTempWrite, removerBody,
            removePath, hread, hdec, hch, hfi0, hne1] at he
    | none, some u =>
      by_cases hst : w.status u = 200
      · have hread : readFile ⟨(fs.next, w.body u) :: fs.files, fs.next + 1⟩ fs.next =
            w.body u := by simp [readFile, List.lookup]
        cases hdec : w.decode (w.body u) fallbackFmt with
        | none =>
          simp [remover_silencio, acquireSource, download_file, mkTempWrite,
            removerBody, removePath, hst, hread, hdec, hfi0, hne1]
        | some audio =>
          cases hch : w.split 100 (-35) 50 audio with
          | nil =>
            simp [remover_silencio, acquireSource, download_file, mkTempWrite,
              removerBody, removePath, hst, hread, hdec, hch, hfi0, hne1]
          | cons c cs =>
            simp [remover_silencio, acquireSource, download_file, mkTempWrite,
              removerBody, removePath, hst, hread, hdec, hch, hfi0, hne1] at he
      · simp [remover_silencio, acquireSource, download_file, hst]
  · intro r hr
    match file, url with
    | none, none => simp [remover_silencio] at hr
    | some up, some u => simp [remover_silencio] at hr
    | some up, none =>
      have hread : readFile ⟨(fs.next, up.content) :: fs.files, fs.next + 1⟩ fs.next =
          up.content := by simp [readFile, List.lookup]
      cases hdec : w.decode up.content (extOf up.filename) with
      | none =>
        simp [remover_silencio, acquireSource, mkTempWrite, removerBody,
          removePath, hread, hdec, hfi0, hne1] at hr
      | some audio =>
        cases hch : w.split 100 (-35) 50 audio with
        | nil =>
          simp [remover_silencio, acquireSource, mkTempWrite, removerBody,
            removePath, hread, hdec, hch, hfi0, hne1] at hr
        | cons c cs =>
          simp [remover_silencio, acquireSource, mkTempWrite, removerBody,
            removePath, hread, hdec, hch, hfi0, hne1] at hr
          subst hr
          refine ⟨rfl, w.encode (concatAudio c cs), ?_⟩
          simp [remover_silencio, acquireSource, mkTempWrite, removerBody,
            removePath, hread, hdec, hch, hfi0, hne1]
    | none, some u =>
      by_cases hst : w.status u = 200
      · have hread : readFile ⟨(fs.next, w.body u) :: fs.files, fs.next + 1⟩ fs.next =
            w.body u := by simp [readFile, List.lookup]
        cases hdec : w.decode (w.body u) fallbackFmt with
        | none =>
          simp [remover_silencio, acquireSource, download_file, mkTempWrite,
            removerBody, removePath, hst, hread, hdec, hfi0, hne1] at hr
        | some audio =>
          cases hch : w.split 100 (-35) 50 audio with
          | nil =>
            simp [remover_silencio, acquireSource, download_file, mkTempWrite,
              removerBody, removePath, hst, hread, hdec, hch, hfi0, hne1] at hr
          | cons c cs =>
            simp [remover_silencio, acquireSource, download_file, mkTempWrite,
              removerBody, removePath, hst, hread, hdec, hch, hfi0, hne1] at hr
            subst hr
            refine ⟨rfl, w.encode (concatAudio c cs), ?_⟩
            simp [remover_silencio, acquireSource, download_file, mkTempWrite,
              removerBody, removePath, hst, hread, hdec, hch, hfi0, hne1]
      · simp [remover_silencio, acquireSource, download_file, hst] at hr

/-- Witness for C1 (amended): the concrete loud-clip runs — `/transcrever`
restores the empty filesystem, `/remover-silencio` leaves exactly the
trimmed output. -/
theorem scratch_file_lifecycle_witness :
    (transcrever_audio worldLoud [] fs0 (some upEx) none baseName true).2.2.files
      = fs0.files ∧
    (∀ r, (remover_silencio worldLoud fs0 (some upEx) none).1 = .ok r →
      r.path = fs0.next + 1 ∧ ∃ cnt,
        (remover_silencio worldLoud fs0 (some upEx) none).2.files =
          (r.path, cnt) :: fs0.files) :=
  ⟨(scratch_file_lifecycle worldLoud [] fs0 (some upEx) none baseName true
      (by simp [FS.WF, fs0])).1,
   (scratch_file_lifecycle worldLoud [] fs0 (some upEx) none baseName true
      (by simp [FS.WF, fs0])).2.2⟩
